import Mathlib

set_option maxHeartbeats 1000000

/-!
Verification development for the yolohand11 repository.

The repository consists of two Python scripts:
  * `convert_dataset_gesture.py` — converts a YOLO-pose dataset into a
    gesture-detection dataset: it loads a folder-key → class-id map
    (`load_gesture_map`), matches filename stems against the keys
    (longest-key-first substring matching), rewrites each pose label line
    into a detection label line, and copies the accepted image/label pairs
    into the destination tree (`process_dataset`).
  * `make_gesture.py` — builds the mapping file; its core is
    `normalize_name`, which canonicalizes gesture names.

Strings are embedded as `List Char`; the Python string operations used by
the scripts (`str.replace` with single-character patterns, `str.lower`,
`str.strip`, `str.split`, `' '.join`, `in` substring tests, `int(...)`)
are modelled as executable functions on `List Char`.  The filesystem seen
by `process_dataset` is modelled explicitly: the source dataset is a value
listing the images and label files of each split, and the destination tree
is a map from (split, directory kind, filename) to file contents.
-/

namespace YoloHand

/-- Models Python `str.replace(old, new)` for a single-character pattern
`old`: every occurrence of the character `old` in `s` is replaced by the
list `new`.  (All `replace` calls in the source scripts use
single-character patterns.) -/
def py_replace_char (s : List Char) (old : Char) (new : List Char) : List Char :=
  match s with
  | [] => []
  | c :: rest =>
    if c = old then new ++ py_replace_char rest old new
    else c :: py_replace_char rest old new

/-- Models Python `str.lower` applied characterwise (ASCII case folding). -/
def py_lower (s : List Char) : List Char := s.map Char.toLower

/-- Embeds `normalize_name` from `make_gesture.py`:
`name.lower().replace('-', '').replace('_', '').replace(' ', '')`. -/
def normalize_name (name : List Char) : List Char :=
  py_replace_char (py_replace_char (py_replace_char (py_lower name) '-' []) '_' []) ' ' []

/-- Models Python `str.strip()` (no argument): remove leading and trailing
whitespace characters. -/
def py_strip_ws (s : List Char) : List Char :=
  ((s.dropWhile Char.isWhitespace).reverse.dropWhile Char.isWhitespace).reverse

/-- Worker for `py_split_ws`: `cur` holds the characters of the current
token in reverse order. -/
def py_split_go (cur : List Char) (s : List Char) : List (List Char) :=
  match s with
  | [] => if cur = [] then [] else [cur.reverse]
  | c :: rest =>
    if c.isWhitespace then
      if cur = [] then py_split_go [] rest else cur.reverse :: py_split_go [] rest
    else py_split_go (c :: cur) rest

/-- Models Python `str.split()` (no argument): split on runs of whitespace,
producing no empty tokens. -/
def py_split_ws (s : List Char) : List (List Char) := py_split_go [] s

/-- Worker for `py_digits`: consumes further digits, allowing a single
underscore between digit groups as Python `int` does. -/
def py_digits_go (acc : Nat) : List Char → Option Nat
  | [] => some acc
  | '_' :: rest =>
    match rest with
    | [] => none
    | d :: rest2 =>
      if d.isDigit then py_digits_go (acc * 10 + (d.toNat - 48)) rest2 else none
  | d :: rest =>
    if d.isDigit then py_digits_go (acc * 10 + (d.toNat - 48)) rest else none

/-- Parses a nonempty unsigned decimal digit string, allowing single
underscores between digits (Python `int` literal rules). -/
def py_digits (s : List Char) : Option Nat :=
  match s with
  | [] => none
  | d :: rest => if d.isDigit then py_digits_go (d.toNat - 48) rest else none

/-- Models Python `int(str)`: strip surrounding whitespace, optional sign,
then a decimal digit string; `none` models the `ValueError` case. -/
def py_int (s : List Char) : Option Int :=
  match py_strip_ws s with
  | '+' :: rest => (py_digits rest).map (fun n => (n : Int))
  | '-' :: rest => (py_digits rest).map (fun n => -(n : Int))
  | t => (py_digits t).map (fun n => (n : Int))

/-- Models Python `str(i)` for an integer (as interpolated by the f-string
in `process_dataset`). -/
def int_repr (i : Int) : List Char := (toString i).data

/-- One step of the label-rewriting loop in `process_dataset`
(lines 196-207): `parts = line.strip().split()`; blank lines are skipped;
otherwise `bbox = parts[1:5]` and the accumulated text is extended with
`f"{new_class_id} {' '.join(bbox)}\n"`. -/
def transcode_append (new_class_id : Int) (acc : List Char) (line : List Char) : List Char :=
  let parts := py_split_ws (py_strip_ws line)
  if parts = [] then acc
  else acc ++ int_repr new_class_id ++ ' ' :: List.intercalate [' '] ((parts.drop 1).take 4) ++ ['\n']

/-- The label transcoder of `process_dataset`: fold `transcode_append` over
the lines of the source label file, starting from the empty string. -/
def transcode_lines (new_class_id : Int) (lines : List (List Char)) : List Char :=
  lines.foldl (transcode_append new_class_id) []

/-- Models Python `str.strip(chars)`: remove leading and trailing
characters belonging to `cs`. -/
def py_strip_chars (cs : List Char) (s : List Char) : List Char :=
  ((s.dropWhile (fun c => cs.contains c)).reverse.dropWhile (fun c => cs.contains c)).reverse

/-- The key normalization inside `load_gesture_map` (line 81):
`path_key.strip("/\\").replace("/", "_").replace("\\", "_")`. -/
def parse_key (path_key : List Char) : List Char :=
  py_replace_char (py_replace_char (py_strip_chars ['/', '\\'] path_key) '/' ['_']) '\\' ['_']

/-- Python dict assignment `d[k] = v` on an insertion-ordered dict
represented as an association list: an existing binding for `k` is updated
in place, otherwise the new binding is appended. -/
def dict_set : List (List Char × Int) → List Char → Int → List (List Char × Int)
  | [], k, v => [(k, v)]
  | (k2, v2) :: rest, k, v =>
    if k2 = k then (k, v) :: rest else (k2, v2) :: dict_set rest k v

/-- The per-line parse of `load_gesture_map` (lines 59-84), returning the
(key, class id) entry the line contributes, if any: comment lines and
blank lines are skipped, lines with fewer than 2 tokens are skipped with a
warning, a line whose last token is not an integer is skipped with a
warning, and an entry whose normalized key is empty is discarded. -/
def line_entry (line : List Char) : Option (List Char × Int) :=
  if ['#'].isPrefixOf line ∨ py_strip_ws line = [] then none
  else
    let parts := py_split_ws (py_strip_ws line)
    if parts.length < 2 then none
    else
      match py_int (parts.getLastD []) with
      | none => none
      | some class_id =>
        let processed_key := parse_key (parts.headD [])
        if processed_key = [] then none else some (processed_key, class_id)

/-- One iteration of the mapping-file loop in `load_gesture_map`: process
one line, updating the dict accumulated so far. -/
def parse_map_line (gesture_map : List (List Char × Int)) (line : List Char) :
    List (List Char × Int) :=
  match line_entry line with
  | none => gesture_map
  | some (k, v) => dict_set gesture_map k v

/-- The two fatal errors `load_gesture_map` can raise: the
`FileNotFoundError` for a missing mapping file and the `ValueError` for a
file that produced no entries. -/
inductive LoadError where
  | fileNotFound : LoadError
  | emptyMap : LoadError
deriving DecidableEq

/-- Embeds `load_gesture_map`: the input is `none` when the mapping file
is missing (the `map_file.exists()` check fails), otherwise the list of
the file's lines.  The loop builds the dict; if it ends empty the function
raises `ValueError`, modelled as `LoadError.emptyMap`. -/
def load_gesture_map (file : Option (List (List Char))) :
    Except LoadError (List (List Char × Int)) :=
  match file with
  | none => .error .fileNotFound
  | some lines =>
    let gesture_map := lines.foldl parse_map_line []
    if gesture_map = [] then .error .emptyMap else .ok gesture_map

/-- Models the Python substring test `needle in hay` on strings: true
exactly when `needle` occurs as a contiguous substring of `hay`. -/
def is_substring (needle : List Char) : List Char → Bool
  | [] => needle.isEmpty
  | c :: rest => needle.isPrefixOf (c :: rest) || is_substring needle rest

/-- The descending-length key ordering of `process_dataset` (line 127):
`sorted(folder_map.keys(), key=len, reverse=True)`.  Python's sort is
stable, as is `List.insertionSort` with this non-strict comparison.  The
(key, id) pairs are sorted together; since dict keys are unique this
equals sorting the keys alone and indexing the dict on a match. -/
def sort_pairs (folder_map : List (List Char × Int)) : List (List Char × Int) :=
  folder_map.insertionSort (fun a b => b.1.length ≤ a.1.length)

/-- The matching loop of `process_dataset` (lines 156-183): scan the keys
in sorted order and return the class id of the first key contained in the
filename stem, or `none` when the loop falls through. -/
def match_loop : List (List Char × Int) → List Char → Option Int
  | [], _ => none
  | (folder_key, class_id) :: rest, stem =>
    if is_substring folder_key stem then some class_id else match_loop rest stem

/-- The KeyMatcher of `process_dataset`: keys sorted by descending length,
first substring match wins. -/
def key_match (folder_map : List (List Char × Int)) (stem : List Char) : Option Int :=
  match_loop (sort_pairs folder_map) stem

/-- A source image file: filename stem, suffix (with the dot), and
contents. -/
structure SrcImage where
  stem : List Char
  suffix : List Char
  content : List Char
deriving DecidableEq

/-- A source label file as seen by `process_dataset`: either readable with
the given lines, or present but failing to read (the `except` branch at
line 208). -/
inductive LabelFile where
  | readable : List (List Char) → LabelFile
  | unreadable : LabelFile
deriving DecidableEq

/-- One split of the source dataset: the image files enumerated by the
glob, and the label directory as an association from stem to label file (a
stem absent from the association models a missing `stem + ".txt"`). -/
structure SrcSplit where
  images : List SrcImage
  labels : List (List Char × LabelFile)

/-- The source dataset: the train and val splits. -/
structure Source where
  train : SrcSplit
  val : SrcSplit

/-- The two splits the walker iterates over. -/
inductive Split where
  | train : Split
  | val : Split
deriving DecidableEq

/-- The two destination directory kinds within one split
(`images/<split>/`, `labels/<split>/`). -/
inductive FKind where
  | image : FKind
  | label : FKind
deriving DecidableEq

/-- The stats dict of `process_dataset` (line 129). -/
structure Stats where
  train : Nat
  val : Nat
  skipped : Nat
deriving DecidableEq

/-- The destination tree: the contents of the file named `n` in the
directory `<kind>s/<split>/`, or `none` when the file is absent. -/
def Tree : Type := Split → FKind → List Char → Option (List Char)

/-- The walker's state: the stats dict plus the destination tree. -/
structure WalkState where
  stats : Stats
  tree : Tree

/-- The empty destination tree. -/
def empty_tree : Tree := fun _ _ _ => none

/-- Writing (or overwriting) one destination file. -/
def write_file (t : Tree) (sp : Split) (k : FKind) (name content : List Char) : Tree :=
  fun sp2 k2 n2 => if sp2 = sp ∧ k2 = k ∧ n2 = name then some content else t sp2 k2 n2

/-- The statement `stats[split] += 1` (line 221). -/
def bump_split (s : Stats) : Split → Stats
  | .train => { s with train := s.train + 1 }
  | .val => { s with val := s.val + 1 }

/-- The statement `stats["skipped"] += 1`. -/
def bump_skipped (s : Stats) : Stats := { s with skipped := s.skipped + 1 }

/-- The body of the per-image loop of `process_dataset` (lines 150-221):
match the stem against the sorted keys, bumping `skipped` on no match;
look up the label file, bumping `skipped` when it is missing or
unreadable; transcode it; when the transcoded text is nonempty, write the
destination label, copy the image, and bump the split counter.  When the
transcoded text is empty the `if new_label_content:` test fails and —
having no else branch — leaves the state entirely unchanged. -/
def process_image (sorted_pairs : List (List Char × Int))
    (labels : List (List Char × LabelFile)) (split : Split)
    (st : WalkState) (img : SrcImage) : WalkState :=
  match match_loop sorted_pairs img.stem with
  | none => { st with stats := bump_skipped st.stats }
  | some new_class_id =>
    match labels.lookup img.stem with
    | none => { st with stats := bump_skipped st.stats }
    | some .unreadable => { st with stats := bump_skipped st.stats }
    | some (.readable lines) =>
      let new_label_content := transcode_lines new_class_id lines
      if new_label_content = [] then st
      else
        let t1 := write_file st.tree split .label (img.stem ++ ".txt".data) new_label_content
        { stats := bump_split st.stats split,
          tree := write_file t1 split .image (img.stem ++ img.suffix) img.content }

/-- One split of the walk: fold the per-image step over the split's
images. -/
def process_split (sorted_pairs : List (List Char × Int)) (src : SrcSplit)
    (split : Split) (st : WalkState) : WalkState :=
  src.images.foldl (process_image sorted_pairs src.labels split) st

/-- Embeds `process_dataset`: sort the keys once, initialize the stats
dict to zeros, then process the train split followed by the val split,
starting from the given destination tree. -/
def process_dataset (folder_map : List (List Char × Int)) (src : Source)
    (d0 : Tree) : WalkState :=
  let sorted := sort_pairs folder_map
  process_split sorted src.val .val
    (process_split sorted src.train .train ⟨⟨0, 0, 0⟩, d0⟩)

/-- The walker state after a prefix of the run over an initially empty
destination: the first `n1` images of the train split, then (once the
train split is exhausted) the first `n2` images of the val split. -/
def walk_steps (folder_map : List (List Char × Int)) (src : Source)
    (n1 n2 : Nat) : WalkState :=
  let sorted := sort_pairs folder_map
  (src.val.images.take n2).foldl (process_image sorted src.val.labels .val)
    ((src.train.images.take n1).foldl (process_image sorted src.train.labels .train)
      ⟨⟨0, 0, 0⟩, empty_tree⟩)

/-- Pairing property of a destination tree: every label file has an image
file with the same stem in the same split, and every image file has a
label file with the same stem in the same split. -/
def Paired (t : Tree) : Prop :=
  ∀ (sp : Split) (name : List Char),
    (t sp .label name ≠ none →
      ∃ stem suffix, name = stem ++ ".txt".data ∧ t sp .image (stem ++ suffix) ≠ none) ∧
    (t sp .image name ≠ none →
      ∃ stem suffix, name = stem ++ suffix ∧ t sp .label (stem ++ ".txt".data) ≠ none)

/-- A single destination-file write performed by the walker. -/
structure FileWrite where
  split : Split
  kind : FKind
  name : List Char
  content : List Char

/-- Apply one recorded write to a tree. -/
def apply_write (t : Tree) (w : FileWrite) : Tree :=
  write_file t w.split w.kind w.name w.content

/-- Apply a sequence of recorded writes, left to right. -/
def apply_writes (ws : List FileWrite) (t : Tree) : Tree := ws.foldl apply_write t

/-- The destination writes one image contributes: none on any skip, and
the label write followed by the image copy on a commit. -/
def image_writes (sorted_pairs : List (List Char × Int))
    (labels : List (List Char × LabelFile)) (split : Split)
    (img : SrcImage) : List FileWrite :=
  match match_loop sorted_pairs img.stem with
  | none => []
  | some new_class_id =>
    match labels.lookup img.stem with
    | none => []
    | some .unreadable => []
    | some (.readable lines) =>
      let new_label_content := transcode_lines new_class_id lines
      if new_label_content = [] then []
      else
        [⟨split, .label, img.stem ++ ".txt".data, new_label_content⟩,
         ⟨split, .image, img.stem ++ img.suffix, img.content⟩]

/-- The stats update one image contributes. -/
def image_stats (sorted_pairs : List (List Char × Int))
    (labels : List (List Char × LabelFile)) (split : Split)
    (s : Stats) (img : SrcImage) : Stats :=
  match match_loop sorted_pairs img.stem with
  | none => bump_skipped s
  | some new_class_id =>
    match labels.lookup img.stem with
    | none => bump_skipped s
    | some .unreadable => bump_skipped s
    | some (.readable lines) =>
      if transcode_lines new_class_id lines = [] then s else bump_split s split

/-- All destination writes of one split, in order. -/
def split_writes (sorted_pairs : List (List Char × Int)) (src : SrcSplit)
    (split : Split) : List FileWrite :=
  (src.images.map (image_writes sorted_pairs src.labels split)).flatten

/-- All destination writes of a full run, in order. -/
def dataset_writes (folder_map : List (List Char × Int)) (src : Source) :
    List FileWrite :=
  split_writes (sort_pairs folder_map) src.train .train ++
    split_writes (sort_pairs folder_map) src.val .val

/-- The final stats of a full run (they do not depend on the destination
tree). -/
def dataset_stats (folder_map : List (List Char × Int)) (src : Source) : Stats :=
  src.val.images.foldl (image_stats (sort_pairs folder_map) src.val.labels .val)
    (src.train.images.foldl (image_stats (sort_pairs folder_map) src.train.labels .train)
      ⟨0, 0, 0⟩)

/-- The content of the last write in `ws` hitting the given destination
file, if any. -/
def last_write : List FileWrite → Split → FKind → List Char → Option (List Char)
  | [], _, _, _ => none
  | w :: ws, sp, k, n =>
    match last_write ws sp k n with
    | some c => some c
    | none => if sp = w.split ∧ k = w.kind ∧ n = w.name then some w.content else none

/-- Counts the lines the C4 claim counts, stated from the spec's words for
comparison with the code: at least 2 whitespace-separated tokens, and a
last token that parses as an integer. -/
def claimed_valid_line (line : List Char) : Bool :=
  decide (2 ≤ (py_split_ws line).length) && (py_int ((py_split_ws line).getLastD [])).isSome

theorem py_replace_char_empty_eq_filter (old : Char) :
    ∀ s : List Char, py_replace_char s old [] = s.filter (fun c => !(c == old))
  | [] => rfl
  | c :: rest => by
    by_cases h : c = old
    · simp [py_replace_char, h, List.filter, py_replace_char_empty_eq_filter old rest]
    · simp [py_replace_char, h, List.filter, py_replace_char_empty_eq_filter old rest,
        beq_eq_false_iff_ne.mpr h]

theorem normalize_name_eq_filter (s : List Char) :
    normalize_name s =
      (s.map Char.toLower).filter (fun c => !(c == '-' || c == '_' || c == ' ')) := by
  unfold normalize_name py_lower
  rw [py_replace_char_empty_eq_filter, py_replace_char_empty_eq_filter,
    py_replace_char_empty_eq_filter, List.filter_filter, List.filter_filter]
  apply List.filter_congr
  intro c _
  rcases eq_or_ne c '-' with h1 | h1
  · subst h1; decide
  rcases eq_or_ne c '_' with h2 | h2
  · subst h2; decide
  rcases eq_or_ne c ' ' with h3 | h3
  · subst h3; decide
  simp [beq_eq_false_iff_ne.mpr h1, beq_eq_false_iff_ne.mpr h2, beq_eq_false_iff_ne.mpr h3]

/-- C8.  `NameNormalizer`: for every input string, `normalize_name`
lower-cases it and removes every hyphen, underscore, and space character
and nothing else (it equals the lower-cased input filtered of those three
characters); in particular `normalize_name "Open-Pinch"` and
`normalize_name "open pinch"` are both `"openpinch"`. -/
theorem normalize_name_spec :
    (∀ s : List Char, normalize_name s =
      (s.map Char.toLower).filter (fun c => !(c == '-' || c == '_' || c == ' '))) ∧
    normalize_name "Open-Pinch".data = "openpinch".data ∧
    normalize_name "open pinch".data = "openpinch".data :=
  ⟨normalize_name_eq_filter, by decide, by decide⟩

/-- C3.  `LabelTranscoder`: for every non-blank source label line (here,
one whose token list has at least five entries `t0 t1 t2 t3 t4 ...`) and
class id, the emitted (newline-terminated) line is the class id followed
by the tokens at positions 1 through 4 copied verbatim, with the
position-0 placeholder and all tokens from position 5 onward dropped; in
particular the line `"2 0.5 0.5 0.2 0.3 0.1 0.1 0.9"` with class id 7
produces exactly the line `"7 0.5 0.5 0.2 0.3"`. -/
theorem transcode_line_bbox :
    (∀ (cid : Int) (line t0 t1 t2 t3 t4 : List Char) (rest : List (List Char)),
      py_split_ws (py_strip_ws line) = t0 :: t1 :: t2 :: t3 :: t4 :: rest →
      transcode_lines cid [line] =
        int_repr cid ++ ' ' :: (t1 ++ ' ' :: (t2 ++ ' ' :: (t3 ++ ' ' :: t4))) ++ ['\n']) ∧
    transcode_lines 7 ["2 0.5 0.5 0.2 0.3 0.1 0.1 0.9".data] = "7 0.5 0.5 0.2 0.3\n".data := by
  constructor
  · intro cid line t0 t1 t2 t3 t4 rest h
    simp [transcode_lines, transcode_append, h, List.intercalate, List.intersperse]
  · decide

theorem transcode_line_bbox_witness :
    transcode_lines 7 ["2 0.5 0.5 0.2 0.3 0.1 0.1 0.9".data] =
      int_repr 7 ++ ' ' :: ("0.5".data ++ ' ' :: ("0.5".data ++ ' ' :: ("0.2".data ++ ' ' :: "0.3".data))) ++ ['\n'] :=
  transcode_line_bbox.1 7 "2 0.5 0.5 0.2 0.3 0.1 0.1 0.9".data "2".data "0.5".data
    "0.5".data "0.2".data "0.3".data ["0.1".data, "0.1".data, "0.9".data] (by decide)

/-- C10.  For every non-blank source label line with fewer than 5
whitespace-separated tokens, the transcoder neither fails nor skips the
line: it emits the class id followed by whichever of the position-1-to-4
tokens exist; a one-token line such as `"0"` yields the line
`"<class_id> "` with an empty bbox part (class id, a space, then the
newline). -/
theorem transcode_short_line :
    (∀ (cid : Int) (line : List Char) (ts : List (List Char)),
      py_split_ws (py_strip_ws line) = ts → ts ≠ [] → ts.length < 5 →
      transcode_lines cid [line] =
        int_repr cid ++ ' ' :: List.intercalate [' '] (ts.drop 1) ++ ['\n']) ∧
    ∀ cid : Int, transcode_lines cid ["0".data] = int_repr cid ++ ' ' :: ['\n'] := by
  constructor
  · intro cid line ts h hne hlen
    have hd : ts.tail.take 4 = ts.tail := by
      apply List.take_of_length_le
      simp [List.length_tail]
      omega
    simp [transcode_lines, transcode_append, h, hne, hd]
  · intro cid
    have h0 : py_split_ws (py_strip_ws "0".data) = [['0']] := rfl
    simp [transcode_lines, transcode_append, h0, List.intercalate]

theorem transcode_short_line_witness :
    transcode_lines 3 ["0".data] =
      int_repr 3 ++ ' ' :: List.intercalate [' '] (([ "0".data ] : List (List Char)).drop 1) ++ ['\n'] :=
  transcode_short_line.1 3 "0".data ["0".data] (by decide) (by decide) (by decide)

theorem dict_set_ne_nil (m : List (List Char × Int)) (k : List Char) (v : Int) :
    dict_set m k v ≠ [] := by
  match m with
  | [] => simp [dict_set]
  | (k2, v2) :: rest =>
    simp only [dict_set]
    split <;> simp

theorem parse_map_line_ne_nil (m : List (List Char × Int)) (l : List Char)
    (h : m ≠ []) : parse_map_line m l ≠ [] := by
  unfold parse_map_line
  match he : line_entry l with
  | none => exact h
  | some (k, v) => exact dict_set_ne_nil m k v

theorem foldl_parse_ne_nil :
    ∀ (ls : List (List Char)) (m : List (List Char × Int)),
      m ≠ [] → ls.foldl parse_map_line m ≠ []
  | [], _, h => h
  | l :: ls, m, h =>
    foldl_parse_ne_nil ls (parse_map_line m l) (parse_map_line_ne_nil m l h)

theorem foldl_parse_nil_iff :
    ∀ ls : List (List Char),
      ls.foldl parse_map_line [] = [] ↔ ∀ l ∈ ls, line_entry l = none
  | [] => by simp
  | l :: ls => by
    simp only [List.foldl_cons, List.mem_cons]
    match he : line_entry l with
    | none =>
      have hp : parse_map_line [] l = [] := by simp [parse_map_line, he]
      rw [hp]
      rw [foldl_parse_nil_iff ls]
      constructor
      · intro h x hx
        rcases hx with hx | hx
        · subst hx; exact he
        · exact h x hx
      · intro h x hx
        exact h x (Or.inr hx)
    | some (k, v) =>
      have hp : parse_map_line [] l = dict_set [] k v := by simp [parse_map_line, he]
      constructor
      · intro h
        exact absurd h (foldl_parse_ne_nil ls _ (by rw [hp]; exact dict_set_ne_nil [] k v))
      · intro h
        have := h l (Or.inl rfl)
        rw [he] at this
        exact absurd this (by simp)

/-- The key list of the dict built by `load_gesture_map`. -/
def map_keys (m : List (List Char × Int)) : List (List Char) := m.map Prod.fst

theorem dict_set_of_not_mem :
    ∀ (m : List (List Char × Int)) (k : List Char) (v : Int),
      k ∉ map_keys m → dict_set m k v = m ++ [(k, v)]
  | [], _, _, _ => rfl
  | (k2, v2) :: rest, k, v, h => by
    have hk : k2 ≠ k := by
      intro he
      exact h (by simp [map_keys, he])
    simp only [dict_set, hk, if_false]
    rw [dict_set_of_not_mem rest k v (by
      intro hm
      exact h (by simp [map_keys] at hm ⊢; exact Or.inr hm))]
    simp

theorem foldl_parse_keys :
    ∀ (ls : List (List Char)) (m : List (List Char × Int)),
      (map_keys m ++ ls.filterMap (fun l => (line_entry l).map Prod.fst)).Nodup →
      map_keys (ls.foldl parse_map_line m) =
        map_keys m ++ ls.filterMap (fun l => (line_entry l).map Prod.fst)
  | [], m, _ => by simp
  | l :: ls, m, h => by
    simp only [List.foldl_cons]
    match he : line_entry l with
    | none =>
      have hf : (l :: ls).filterMap (fun l => (line_entry l).map Prod.fst) =
          ls.filterMap (fun l => (line_entry l).map Prod.fst) := by
        simp [List.filterMap_cons, he]
      rw [hf] at h ⊢
      have hp : parse_map_line m l = m := by simp [parse_map_line, he]
      rw [hp]
      exact foldl_parse_keys ls m h
    | some (k, v) =>
      have hf : (l :: ls).filterMap (fun l => (line_entry l).map Prod.fst) =
          k :: ls.filterMap (fun l => (line_entry l).map Prod.fst) := by
        simp [List.filterMap_cons, he]
      rw [hf] at h ⊢
      have hknm : k ∉ map_keys m := by
        rw [List.nodup_append] at h
        intro hk
        exact h.2.2 hk (List.mem_cons_self _ _)
      have hp : parse_map_line m l = m ++ [(k, v)] := by
        simp [parse_map_line, he, dict_set_of_not_mem m k v hknm]
      rw [hp]
      have hkeys : map_keys (m ++ [(k, v)]) = map_keys m ++ [k] := by
        simp [map_keys]
      have h2 : (map_keys (m ++ [(k, v)]) ++
          ls.filterMap (fun l => (line_entry l).map Prod.fst)).Nodup := by
        rw [hkeys, List.append_assoc, List.singleton_append]
        exact h
      rw [foldl_parse_keys ls (m ++ [(k, v)]) h2, hkeys, List.append_assoc,
        List.singleton_append]

theorem filterMap_length_countP {α β : Type} (f : α → Option β) :
    ∀ ls : List α, (ls.filterMap f).length = ls.countP (fun l => (f l).isSome)
  | [] => rfl
  | l :: ls => by
    match h : f l with
    | none => simp [List.filterMap_cons, h, List.countP_cons,
        filterMap_length_countP f ls]
    | some b => simp [List.filterMap_cons, h, List.countP_cons,
        filterMap_length_countP f ls]

/-- C4 (amended).  `MapLoader`: for every mapping file on which the load
succeeds, the number of keys in the returned map equals the number of
non-comment, non-blank lines that have at least 2 whitespace-separated
tokens, a last token that parses as an integer, and a nonempty normalized
key (that is, the lines for which `line_entry` produces an entry) —
provided the normalized keys of those lines are pairwise distinct. -/
theorem load_map_key_count :
    ∀ (lines : List (List Char)) (m : List (List Char × Int)),
      (lines.filterMap (fun l => (line_entry l).map Prod.fst)).Nodup →
      load_gesture_map (some lines) = .ok m →
      m.length = lines.countP (fun l => (line_entry l).isSome) := by
  intro lines m hnd hload
  have hm : m = lines.foldl parse_map_line [] := by
    simp only [load_gesture_map] at hload
    split at hload
    · exact absurd hload (by simp)
    · exact (Except.ok.inj hload).symm
  have hnd2 : (map_keys ([] : List (List Char × Int)) ++
      lines.filterMap (fun l => (line_entry l).map Prod.fst)).Nodup := by
    simpa [map_keys] using hnd
  have hkeys := foldl_parse_keys lines [] hnd2
  have hlen : m.length = (map_keys m).length := by simp [map_keys]
  rw [hlen, hm, hkeys]
  simp only [map_keys, List.map_nil, List.nil_append]
  rw [filterMap_length_countP]
  congr 1
  funext l
  cases line_entry l <;> simp

theorem load_map_key_count_witness :
    ([(("a_b".data : List Char), (3 : Int)), ("c".data, 4)] : List (List Char × Int)).length =
      (["a/b ok 3".data, "c 4".data] : List (List Char)).countP
        (fun l => (line_entry l).isSome) :=
  load_map_key_count ["a/b ok 3".data, "c 4".data] [("a_b".data, 3), ("c".data, 4)]
    (by decide) (by rfl)

/-- C4 counterexample.  The claim as stated fails: the file with the two
lines `"a 1"` and `"a 2"` has two lines with at least 2 tokens and a
parseable trailing integer, yet the returned map has a single key (the
duplicate key is overwritten). -/
theorem map_count_duplicate_keys_cex :
    ¬ (∀ (lines : List (List Char)) (m : List (List Char × Int)),
        load_gesture_map (some lines) = .ok m →
        m.length = lines.countP claimed_valid_line) := by
  intro h
  have := h ["a 1".data, "a 2".data] [("a".data, 2)] (by rfl)
  exact absurd this (by decide)

/-- C5.  `MapLoader` raises-iff: the load fails with the file-not-found
error exactly when the mapping file is missing; it fails with the
empty-map error exactly when zero valid entries are parsed from an
existing file; otherwise it returns a map without raising — malformed
lines are skipped rather than aborting. -/
theorem load_gesture_map_errors :
    ∀ lines : List (List Char),
      load_gesture_map none = .error .fileNotFound ∧
      (∀ e, load_gesture_map (some lines) = .error e → e = .emptyMap) ∧
      (load_gesture_map (some lines) = .error .emptyMap ↔
        ∀ l ∈ lines, line_entry l = none) ∧
      ((∃ l ∈ lines, (line_entry l).isSome) →
        ∃ m, load_gesture_map (some lines) = .ok m) := by
  intro lines
  refine ⟨rfl, ?_, ?_, ?_⟩
  · intro e he
    simp only [load_gesture_map] at he
    split at he
    · cases he; rfl
    · exact absurd he (by simp)
  · simp only [load_gesture_map]
    split
    · next hnil =>
      constructor
      · intro _
        exact (foldl_parse_nil_iff lines).mp hnil
      · intro _
        rfl
    · next hnil =>
      constructor
      · intro he
        exact absurd he (by simp)
      · intro hall
        exact absurd ((foldl_parse_nil_iff lines).mpr hall) hnil
  · intro ⟨l, hl, hsome⟩
    simp only [load_gesture_map]
    split
    · next hnil =>
      have := (foldl_parse_nil_iff lines).mp hnil l hl
      rw [this] at hsome
      exact absurd hsome (by simp)
    · exact ⟨_, rfl⟩

theorem load_gesture_map_errors_witness :
    ∃ m, load_gesture_map (some ["x 1".data, "bad".data]) = .ok m :=
  (load_gesture_map_errors ["x 1".data, "bad".data]).2.2.2
    ⟨"x 1".data, by decide, by decide⟩

theorem is_substring_iff (needle : List Char) :
    ∀ hay : List Char, is_substring needle hay = true ↔ needle <:+: hay
  | [] => by simp [is_substring, List.isEmpty_iff]
  | c :: rest => by
    simp [is_substring, is_substring_iff needle rest, List.infix_cons_iff]

theorem match_loop_none_iff (stem : List Char) :
    ∀ pairs : List (List Char × Int),
      match_loop pairs stem = none ↔ ∀ p ∈ pairs, ¬ p.1 <:+: stem
  | [] => by simp [match_loop]
  | (k0, c0) :: rest => by
    rw [show match_loop ((k0, c0) :: rest) stem =
      (if is_substring k0 stem then some c0 else match_loop rest stem) from rfl]
    by_cases hk : is_substring k0 stem = true
    · rw [if_pos hk]
      constructor
      · intro h
        exact absurd h (by simp)
      · intro h
        exact absurd ((is_substring_iff k0 stem).mp hk)
          (h (k0, c0) (List.mem_cons_self _ _))
    · rw [if_neg hk, match_loop_none_iff stem rest]
      constructor
      · intro h p hp
        rcases List.mem_cons.mp hp with rfl | hp
        · intro hinf
          exact hk ((is_substring_iff k0 stem).mpr hinf)
        · exact h p hp
      · intro h p hp
        exact h p (List.mem_cons.mpr (Or.inr hp))

theorem match_loop_some (stem : List Char) :
    ∀ (pairs : List (List Char × Int)) (cid : Int),
      pairs.Pairwise (fun a b => b.1.length ≤ a.1.length) →
      match_loop pairs stem = some cid →
      ∃ k, (k, cid) ∈ pairs ∧ k <:+: stem ∧
        ∀ q ∈ pairs, q.1 <:+: stem → q.1.length ≤ k.length
  | [], cid, _, h => by simp [match_loop] at h
  | (k0, c0) :: rest, cid, hpw, h => by
    rw [show match_loop ((k0, c0) :: rest) stem =
      (if is_substring k0 stem then some c0 else match_loop rest stem) from rfl] at h
    rcases List.pairwise_cons.mp hpw with ⟨hlen, hpw2⟩
    by_cases hk : is_substring k0 stem = true
    · rw [if_pos hk] at h
      injection h with hc
      subst hc
      refine ⟨k0, List.mem_cons_self _ _, (is_substring_iff k0 stem).mp hk, ?_⟩
      intro q hq _
      rcases List.mem_cons.mp hq with rfl | hq
      · exact le_refl _
      · exact hlen q hq
    · rw [if_neg hk] at h
      obtain ⟨k, hmem, hinf, hmax⟩ := match_loop_some stem rest cid hpw2 h
      refine ⟨k, List.mem_cons.mpr (Or.inr hmem), hinf, ?_⟩
      intro q hq hqinf
      rcases List.mem_cons.mp hq with rfl | hq
      · exact absurd ((is_substring_iff k0 stem).mpr hqinf) hk
      · exact hmax q hq hqinf

theorem sort_pairs_pairwise (m : List (List Char × Int)) :
    (sort_pairs m).Pairwise (fun a b => b.1.length ≤ a.1.length) := by
  haveI : IsTotal (List Char × Int) (fun a b => b.1.length ≤ a.1.length) :=
    ⟨fun a b => Or.symm (Nat.le_total a.1.length b.1.length)⟩
  haveI : IsTrans (List Char × Int) (fun a b => b.1.length ≤ a.1.length) :=
    ⟨fun _ _ _ hab hbc => le_trans hbc hab⟩
  exact List.sorted_insertionSort _ m

/-- C1.  KeyMatcher: for every gesture map and filename stem, the match
procedure tests the normalized keys in order of descending length and
returns the class id of the first key that occurs as a contiguous
substring of the stem (so the matched key's length is maximal among all
matching keys), and returns `none` when no key is a substring; in
particular, with keys `b_c ↦ 10` and `a_b_c ↦ 4` and stem `a_b_c_d` it
returns 4, not 10. -/
theorem key_match_longest_substring :
    ∀ (folder_map : List (List Char × Int)) (stem : List Char),
      (key_match folder_map stem = none ↔ ∀ p ∈ folder_map, ¬ p.1 <:+: stem) ∧
      (∀ cid : Int, key_match folder_map stem = some cid →
        ∃ k, (k, cid) ∈ folder_map ∧ k <:+: stem ∧
          ∀ q ∈ folder_map, q.1 <:+: stem → q.1.length ≤ k.length) ∧
      key_match [("b_c".data, 10), ("a_b_c".data, 4)] "a_b_c_d".data = some 4 := by
  intro folder_map stem
  have hperm := List.perm_insertionSort
    (fun (a b : List Char × Int) => b.1.length ≤ a.1.length) folder_map
  refine ⟨?_, ?_, by decide⟩
  · rw [key_match, match_loop_none_iff]
    constructor
    · intro h p hp
      exact h p (hperm.mem_iff.mpr hp)
    · intro h p hp
      exact h p (hperm.mem_iff.mp hp)
  · intro cid h
    obtain ⟨k, hmem, hinf, hmax⟩ :=
      match_loop_some stem (sort_pairs folder_map) cid (sort_pairs_pairwise folder_map) h
    exact ⟨k, hperm.mem_iff.mp hmem, hinf,
      fun q hq hqinf => hmax q (hperm.mem_iff.mpr hq) hqinf⟩

theorem key_match_longest_substring_witness :
    ∃ k, (k, (4 : Int)) ∈ ([("b_c".data, 10), ("a_b_c".data, 4)] : List (List Char × Int)) ∧
      k <:+: "a_b_c_d".data ∧
      ∀ q ∈ ([("b_c".data, 10), ("a_b_c".data, 4)] : List (List Char × Int)),
        q.1 <:+: "a_b_c_d".data → q.1.length ≤ k.length :=
  (key_match_longest_substring [("b_c".data, 10), ("a_b_c".data, 4)] "a_b_c_d".data).2.1
    4 (by decide)

theorem write_file_pos (t : Tree) (sp : Split) (k : FKind) (name content : List Char) :
    write_file t sp k name content sp k name = some content := by
  simp [write_file]

theorem write_file_neg (t : Tree) (sp : Split) (k : FKind) (name content : List Char)
    (sp2 : Split) (k2 : FKind) (n2 : List Char)
    (h : ¬(sp2 = sp ∧ k2 = k ∧ n2 = name)) :
    write_file t sp k name content sp2 k2 n2 = t sp2 k2 n2 := by
  simp only [write_file]
  rw [if_neg h]

theorem write_file_ne_none (t : Tree) (sp : Split) (k : FKind) (name content : List Char)
    (sp2 : Split) (k2 : FKind) (n2 : List Char) (h : t sp2 k2 n2 ≠ none) :
    write_file t sp k name content sp2 k2 n2 ≠ none := by
  simp only [write_file]
  split
  · simp
  · exact h

theorem paired_commit (t : Tree) (split : Split) (stem sfx lcontent icontent : List Char)
    (h : Paired t) :
    Paired (write_file (write_file t split .label (stem ++ ".txt".data) lcontent)
      split .image (stem ++ sfx) icontent) := by
  intro sp2 name
  constructor
  · intro hl
    rw [write_file_neg _ _ _ _ _ _ _ _ (by simp)] at hl
    by_cases hc : sp2 = split ∧ name = stem ++ ".txt".data
    · obtain ⟨rfl, rfl⟩ := hc
      refine ⟨stem, sfx, rfl, ?_⟩
      rw [write_file_pos]
      simp
    · rw [write_file_neg _ _ _ _ _ _ _ _ (by
        intro hcon
        exact hc ⟨hcon.1, hcon.2.2⟩)] at hl
      obtain ⟨stem2, sfx2, hname, him⟩ := (h sp2 name).1 hl
      exact ⟨stem2, sfx2, hname,
        write_file_ne_none _ _ _ _ _ _ _ _ (write_file_ne_none _ _ _ _ _ _ _ _ him)⟩
  · intro hi
    by_cases hc : sp2 = split ∧ name = stem ++ sfx
    · obtain ⟨rfl, rfl⟩ := hc
      refine ⟨stem, sfx, rfl, ?_⟩
      rw [write_file_neg _ _ _ _ _ _ _ _ (by simp), write_file_pos]
      simp
    · rw [write_file_neg _ _ _ _ _ _ _ _ (by
        intro hcon
        exact hc ⟨hcon.1, hcon.2.2⟩)] at hi
      rw [write_file_neg _ _ _ _ _ _ _ _ (by simp)] at hi
      obtain ⟨stem2, sfx2, hname, hlb⟩ := (h sp2 name).2 hi
      exact ⟨stem2, sfx2, hname,
        write_file_ne_none _ _ _ _ _ _ _ _ (write_file_ne_none _ _ _ _ _ _ _ _ hlb)⟩

theorem paired_process_image (sorted_pairs : List (List Char × Int))
    (labels : List (List Char × LabelFile)) (split : Split)
    (st : WalkState) (img : SrcImage) (h : Paired st.tree) :
    Paired (process_image sorted_pairs labels split st img).tree := by
  unfold process_image
  cases hm : match_loop sorted_pairs img.stem with
  | none => exact h
  | some cid =>
    cases hl : labels.lookup img.stem with
    | none => exact h
    | some lf =>
      cases lf with
      | unreadable => exact h
      | readable lines =>
        by_cases hc : transcode_lines cid lines = []
        · simpa [hc] using h
        · simp only [hc, if_neg, ite_false]
          exact paired_commit st.tree split img.stem img.suffix _ img.content h

theorem paired_empty : Paired empty_tree := by
  intro sp name
  constructor <;> intro h <;> exact absurd rfl h

theorem paired_foldl (sorted_pairs : List (List Char × Int))
    (labels : List (List Char × LabelFile)) (split : Split) :
    ∀ (imgs : List SrcImage) (st : WalkState), Paired st.tree →
      Paired ((imgs.foldl (process_image sorted_pairs labels split) st)).tree
  | [], _, h => h
  | img :: imgs, st, h =>
    paired_foldl sorted_pairs labels split imgs _
      (paired_process_image sorted_pairs labels split st img h)

/-- C6.  Pairing invariant: after every completed per-image iteration of
the walker (over all splits and all images, i.e. after any prefix of the
run over an initially empty destination), every label file the run has
written has a copied image file with the same stem in the same split, and
every copied image has a written label with the same stem; the run never
ends with an unpaired destination file that it emitted. -/
theorem walker_pairing :
    ∀ (folder_map : List (List Char × Int)) (src : Source) (n1 n2 : Nat),
      Paired (walk_steps folder_map src n1 n2).tree := by
  intro m src n1 n2
  unfold walk_steps
  exact paired_foldl _ _ _ _ _ (paired_foldl _ _ _ _ _ paired_empty)

theorem walker_pairing_witness :
    ∃ stem suffix, ("a.txt".data : List Char) = stem ++ ".txt".data ∧
      (walk_steps [("a".data, 1)]
        ⟨⟨[⟨"a".data, ".png".data, "IMG".data⟩], [("a".data, .readable ["0 1 2 3 4".data])]⟩,
          ⟨[], []⟩⟩ 1 0).tree .train .image (stem ++ suffix) ≠ none :=
  (walker_pairing [("a".data, 1)]
    ⟨⟨[⟨"a".data, ".png".data, "IMG".data⟩], [("a".data, .readable ["0 1 2 3 4".data])]⟩,
      ⟨[], []⟩⟩ 1 0 .train "a.txt".data).1 (by decide)

/-- C2 (amended).  DatasetWalker: for every image whose stem matches a key
and whose label file exists and is readable, if the transcoded label text
is empty then the per-image step leaves the walker state entirely
unchanged — no counter (in particular not `skipped`) is incremented, no
destination label is written, no image is copied — and the walk proceeds
to the next image. -/
theorem process_image_empty_transcode_unchanged :
    ∀ (sorted_pairs : List (List Char × Int)) (labels : List (List Char × LabelFile))
      (split : Split) (st : WalkState) (img : SrcImage) (cid : Int)
      (lines : List (List Char)),
      match_loop sorted_pairs img.stem = some cid →
      labels.lookup img.stem = some (.readable lines) →
      transcode_lines cid lines = [] →
      process_image sorted_pairs labels split st img = st := by
  intro sorted_pairs labels split st img cid lines hm hl ht
  simp [process_image, hm, hl, ht]

theorem process_image_empty_transcode_unchanged_witness :
    process_image [("a".data, 1)] [("a".data, .readable [[]])] .train
      ⟨⟨0, 0, 0⟩, empty_tree⟩ ⟨"a".data, ".png".data, "IMG".data⟩ =
      ⟨⟨0, 0, 0⟩, empty_tree⟩ :=
  process_image_empty_transcode_unchanged [("a".data, 1)] [("a".data, .readable [[]])]
    .train ⟨⟨0, 0, 0⟩, empty_tree⟩ ⟨"a".data, ".png".data, "IMG".data⟩ 1 [[]]
    (by decide) (by decide) (by decide)

/-- C2 counterexample.  The claim as stated fails: with a single train
image whose stem matches a key and whose label file is readable but
consists of one blank line, the transcoded text is empty and the run ends
with stats (0, 0, 0) — the `skipped` counter is NOT incremented, because
the `if new_label_content:` test at line 214 has no else branch. -/
theorem empty_transcode_no_skip_cex :
    (process_dataset [("a".data, 1)]
      ⟨⟨[⟨"a".data, ".png".data, "IMG".data⟩], [("a".data, .readable [[]])]⟩, ⟨[], []⟩⟩
      empty_tree).stats = ⟨0, 0, 0⟩ := by
  decide

theorem apply_writes_append (a b : List FileWrite) (t : Tree) :
    apply_writes (a ++ b) t = apply_writes b (apply_writes a t) := by
  simp [apply_writes, List.foldl_append]

theorem process_image_decomp (sorted_pairs : List (List Char × Int))
    (labels : List (List Char × LabelFile)) (split : Split)
    (st : WalkState) (img : SrcImage) :
    process_image sorted_pairs labels split st img =
      ⟨image_stats sorted_pairs labels split st.stats img,
        apply_writes (image_writes sorted_pairs labels split img) st.tree⟩ := by
  unfold process_image image_stats image_writes
  cases hm : match_loop sorted_pairs img.stem with
  | none => rfl
  | some cid =>
    cases hl : labels.lookup img.stem with
    | none => rfl
    | some lf =>
      cases lf with
      | unreadable => rfl
      | readable lines =>
        by_cases hc : transcode_lines cid lines = []
        · simp only [hc, ite_true]
          rfl
        · simp only [hc, ite_false]
          rfl

theorem process_foldl_decomp (sorted_pairs : List (List Char × Int))
    (labels : List (List Char × LabelFile)) (split : Split) :
    ∀ (imgs : List SrcImage) (st : WalkState),
      imgs.foldl (process_image sorted_pairs labels split) st =
        ⟨imgs.foldl (image_stats sorted_pairs labels split) st.stats,
          apply_writes (imgs.map (image_writes sorted_pairs labels split)).flatten st.tree⟩
  | [], st => rfl
  | img :: imgs, st => by
    simp only [List.foldl_cons, List.map_cons, List.flatten_cons]
    rw [process_foldl_decomp sorted_pairs labels split imgs
      (process_image sorted_pairs labels split st img)]
    rw [process_image_decomp]
    simp [apply_writes_append]

theorem process_dataset_decomp (folder_map : List (List Char × Int)) (src : Source)
    (d0 : Tree) :
    process_dataset folder_map src d0 =
      ⟨dataset_stats folder_map src, apply_writes (dataset_writes folder_map src) d0⟩ := by
  unfold process_dataset process_split dataset_stats dataset_writes split_writes
  rw [process_foldl_decomp, process_foldl_decomp]
  simp [apply_writes_append]

theorem apply_writes_eval :
    ∀ (ws : List FileWrite) (t : Tree) (sp : Split) (k : FKind) (n : List Char),
      apply_writes ws t sp k n =
        match last_write ws sp k n with
        | some c => some c
        | none => t sp k n
  | [], _, _, _, _ => rfl
  | w :: ws, t, sp, k, n => by
    show apply_writes ws (apply_write t w) sp k n = _
    rw [apply_writes_eval ws (apply_write t w) sp k n]
    show _ = (match (match last_write ws sp k n with
      | some c => some c
      | none => if sp = w.split ∧ k = w.kind ∧ n = w.name then some w.content
        else none) with
      | some c => some c
      | none => t sp k n)
    cases last_write ws sp k n with
    | some c => rfl
    | none =>
      by_cases hc : sp = w.split ∧ k = w.kind ∧ n = w.name
      · simp [apply_write, write_file, hc]
      · simp [apply_write, write_file, hc]

theorem apply_writes_twice (ws : List FileWrite) (t : Tree) :
    apply_writes ws (apply_writes ws t) = apply_writes ws t := by
  funext sp k n
  rw [apply_writes_eval ws (apply_writes ws t) sp k n, apply_writes_eval ws t sp k n]
  cases last_write ws sp k n <;> rfl

/-- C7.  Idempotence: for every source dataset and gesture map, running
the walker a second time against the unchanged source, with the
destination left exactly as the first run produced it, returns the same
final Stats values (train, val, skipped) as the first run and leaves the
destination tree identical (same files, same contents). -/
theorem process_dataset_idempotent :
    ∀ (folder_map : List (List Char × Int)) (src : Source) (d0 : Tree),
      (process_dataset folder_map src (process_dataset folder_map src d0).tree).stats =
        (process_dataset folder_map src d0).stats ∧
      (process_dataset folder_map src (process_dataset folder_map src d0).tree).tree =
        (process_dataset folder_map src d0).tree := by
  intro m src d0
  rw [process_dataset_decomp m src d0]
  rw [process_dataset_decomp m src (apply_writes (dataset_writes m src) d0)]
  exact ⟨rfl, apply_writes_twice _ _⟩

/-- C9.  KeyMatcher non-boundary matching: a map containing only the key
`b_c` matches the stem `ab_cd` although the occurrence does not align on
underscore boundaries — the stem does not equal the key, does not start
with `b_c_`, does not end with `_b_c`, and does not contain `_b_c_` (the
boundary tests enumerated in the source's comments, lines 169-172). -/
theorem key_match_non_boundary :
    key_match [("b_c".data, 5)] "ab_cd".data = some 5 ∧
    "b_c".data ≠ "ab_cd".data ∧
    ¬ ("b_c".data ++ ['_']) <+: "ab_cd".data ∧
    ¬ ('_' :: "b_c".data) <:+ "ab_cd".data ∧
    ¬ ('_' :: "b_c".data ++ ['_']) <:+: "ab_cd".data := by
  refine ⟨by decide, by decide, by decide, by decide, by decide⟩

end YoloHand
